import Mathlib

/-!
Shallow embedding of the scoresheet placement and input-routing engine of
the DNG music-editor repository.

Sources embedded:
- `src/data/notations.ts` : the symbol registry (`Notation`, `notations`,
  `getNotationByKey`).
- `src/components/ScoreSheet.tsx` : layout constants, `placeNotation`,
  the `Backspace` / `Enter` branches of `handleKeyPress`,
  `handleMidiMessage`, the cursor-recompute effect keyed on
  `currentPage.notes`, `eraseArticulationsAt`, and the pen branch of
  `handleMouseUp`.
- `src/hooks/useScoreProject.ts` : `removeNoteFromCurrentPage`.
- `src/App.tsx` : `TextElement` / `ArticulationElement` shapes and the
  articulation-removal callback (filter by id).

JavaScript numbers on the sequential-placement path are integer-valued
(layout constants and their sums), so coordinates of placed notes are
`Nat`; freely positioned elements (articulations, strokes) use `Int`.
Element ids come from `Date.now().toString()`; the clock value is an
external input, so ids are passed in as `Nat` arguments.
-/

namespace DNG

/-- Symbol descriptor, from `Notation` in `src/data/notations.ts`. -/
structure Notation where
  id : String
  name : String
  alphabet : Char
  image : String
  deriving DecidableEq, Repr

/-- The 45-entry symbol registry `notations` from `src/data/notations.ts`:
lowercase `a`..`z` then uppercase `A`..`S`. -/
def notations : List Notation :=
  [ ⟨"note-a", "Note 1", 'a', "Notes/aa.png"⟩,
    ⟨"note-b", "Note 2", 'b', "Notes/bb.png"⟩,
    ⟨"note-c", "Note 3", 'c', "Notes/cc.png"⟩,
    ⟨"note-d", "Note 4", 'd', "Notes/dd.png"⟩,
    ⟨"note-e", "Note 5", 'e', "Notes/ee.png"⟩,
    ⟨"note-f", "Note 6", 'f', "Notes/ff.png"⟩,
    ⟨"note-g", "Note 7", 'g', "Notes/gg.png"⟩,
    ⟨"note-h", "Note 8", 'h', "Notes/hh.png"⟩,
    ⟨"note-i", "Note 9", 'i', "Notes/ii.png"⟩,
    ⟨"note-j", "Note 10", 'j', "Notes/jj.png"⟩,
    ⟨"note-k", "Note 11", 'k', "Notes/kk.png"⟩,
    ⟨"note-l", "Note 12", 'l', "Notes/ll.png"⟩,
    ⟨"note-m", "Note 13", 'm', "Notes/mm.png"⟩,
    ⟨"note-n", "Note 14", 'n', "Notes/nn.png"⟩,
    ⟨"note-o", "Note 15", 'o', "Notes/oo.png"⟩,
    ⟨"note-p", "Note 16", 'p', "Notes/pp.png"⟩,
    ⟨"note-q", "Note 17", 'q', "Notes/qq.png"⟩,
    ⟨"note-r", "Note 18", 'r', "Notes/rr.png"⟩,
    ⟨"note-s", "Note 19", 's', "Notes/ss.png"⟩,
    ⟨"note-t", "Note 20", 't', "Notes/tt.png"⟩,
    ⟨"note-u", "Note 21", 'u', "Notes/uu.png"⟩,
    ⟨"note-v", "Note 22", 'v', "Notes/vv.png"⟩,
    ⟨"note-w", "Note 23", 'w', "Notes/ww.png"⟩,
    ⟨"note-x", "Note 24", 'x', "Notes/xx.png"⟩,
    ⟨"note-y", "Note 25", 'y', "Notes/yy.png"⟩,
    ⟨"note-z", "Note 26", 'z', "Notes/zz.png"⟩,
    ⟨"note-A", "Note 27", 'A', "Notes/A.png"⟩,
    ⟨"note-B", "Note 28", 'B', "Notes/B.png"⟩,
    ⟨"note-C", "Note 29", 'C', "Notes/C.png"⟩,
    ⟨"note-D", "Note 30", 'D', "Notes/D.png"⟩,
    ⟨"note-E", "Note 31", 'E', "Notes/E.png"⟩,
    ⟨"note-F", "Note 32", 'F', "Notes/F.png"⟩,
    ⟨"note-G", "Note 33", 'G', "Notes/G.png"⟩,
    ⟨"note-H", "Note 34", 'H', "Notes/H.png"⟩,
    ⟨"note-I", "Note 35", 'I', "Notes/I.png"⟩,
    ⟨"note-J", "Note 36", 'J', "Notes/J.png"⟩,
    ⟨"note-K", "Note 37", 'K', "Notes/K.png"⟩,
    ⟨"note-L", "Note 38", 'L', "Notes/L.png"⟩,
    ⟨"note-M", "Note 39", 'M', "Notes/M.png"⟩,
    ⟨"note-N", "Note 40", 'N', "Notes/N.png"⟩,
    ⟨"note-O", "Note 41", 'O', "Notes/O.png"⟩,
    ⟨"note-P", "Note 42", 'P', "Notes/P.png"⟩,
    ⟨"note-Q", "Note 43", 'Q', "Notes/Q.png"⟩,
    ⟨"note-R", "Note 44", 'R', "Notes/R.png"⟩,
    ⟨"note-S", "Note 45", 'S', "Notes/S.png"⟩ ]

/-- Lookup getNotationByKey from `src/data/notations.ts`. The source builds the
object `keyboardMapping` keyed by `alphabet` and looks the key up; since the
45 `alphabet` values are pairwise distinct, the object lookup coincides with
a first-match scan of the list. -/
def getNotationByKey (key : Char) : Option Notation :=
  notations.find? (fun n => n.alphabet == key)

/-! Layout constants from `src/components/ScoreSheet.tsx`. -/

def INITIAL_KEYBOARD_NOTE_X_POSITION : Nat := 170
def NOTATION_VISUAL_WIDTH : Nat := 48
def NOTATION_KEYBOARD_X_INCREMENT : Nat := 50
def KEYBOARD_LINE_Y_POSITIONS : List Nat :=
  [230, 338, 446, 553, 659, 764, 872, 980, 1087, 1193, 1300]
def NOTE_BOUNDARY_LEFT : Nat := INITIAL_KEYBOARD_NOTE_X_POSITION
def NOTE_BOUNDARY_RIGHT : Nat := 1000

/-- Structure PlacedNotation from `ScoreSheet.tsx` (field `noteSym` embeds the source
field named after the symbol descriptor type). -/
structure PlacedNotation where
  id : Nat
  noteSym : Notation
  x : Nat
  y : Nat
  staveIndex : Nat
  octave : Nat
  deriving DecidableEq, Repr

/-- The sequential-placement state of `ScoreSheet`: the current page's
`notes` array plus the two cursor state cells `nextNotePosition` and
`currentKeyboardLineIndex`. -/
structure SeqState where
  notes : List PlacedNotation
  nextNotePosition : Nat
  currentKeyboardLineIndex : Nat
  deriving DecidableEq, Repr

/-- Initial cursor state: `useState(INITIAL_KEYBOARD_NOTE_X_POSITION)` and
`useState(0)`, with an empty page. -/
def initialSeqState : SeqState :=
  ⟨[], INITIAL_KEYBOARD_NOTE_X_POSITION, 0⟩

/-- JavaScript `Array.prototype.indexOf`, returning `none` for `-1`. -/
def listIndexOf (y : Nat) : List Nat → Option Nat
  | [] => none
  | z :: zs => if z = y then some 0 else (listIndexOf y zs).map (· + 1)

/-- The cursor-recompute effect of `ScoreSheet.tsx` keyed on
`currentPage.notes`: derive `nextNotePosition` and
`currentKeyboardLineIndex` from the last note (falling back to line 0 when
the last note's `y` is not one of the configured line positions), or reset
to the initial constants when the page is empty. -/
def recomputeCursorFromNotes (s : SeqState) : SeqState :=
  match s.notes.getLast? with
  | some lastNote =>
    { s with
      nextNotePosition := lastNote.x + NOTATION_KEYBOARD_X_INCREMENT
      currentKeyboardLineIndex :=
        match listIndexOf lastNote.y KEYBOARD_LINE_Y_POSITIONS with
        | some i => i
        | none => 0 }
  | none =>
    { s with
      nextNotePosition := INITIAL_KEYBOARD_NOTE_X_POSITION
      currentKeyboardLineIndex := 0 }

/-- Function placeNotation from `ScoreSheet.tsx`: place at the cursor, wrapping to
`(NOTE_BOUNDARY_LEFT, next line)` when the symbol would cross
`NOTE_BOUNDARY_RIGHT`, and rejecting (state unchanged, warning only) when
no next line exists. `noteId` is the `Date.now()` value. -/
def placeNotation (s : SeqState) (noteId : Nat) (sym : Notation) : SeqState :=
  let finalX := s.nextNotePosition
  let finalY := KEYBOARD_LINE_Y_POSITIONS.getD s.currentKeyboardLineIndex 0
  if NOTE_BOUNDARY_RIGHT < finalX + NOTATION_VISUAL_WIDTH then
    let nextLineIndex := s.currentKeyboardLineIndex + 1
    if nextLineIndex < KEYBOARD_LINE_Y_POSITIONS.length then
      let fx := NOTE_BOUNDARY_LEFT
      let fy := KEYBOARD_LINE_Y_POSITIONS.getD nextLineIndex 0
      { s with
        currentKeyboardLineIndex := nextLineIndex
        notes := s.notes ++ [⟨noteId, sym, fx, fy, 0, 4⟩]
        nextNotePosition := fx + NOTATION_KEYBOARD_X_INCREMENT }
    else
      s
  else
    { s with
      notes := s.notes ++ [⟨noteId, sym, finalX, finalY, 0, 4⟩]
      nextNotePosition := finalX + NOTATION_KEYBOARD_X_INCREMENT }

/-- One observed sequential placement: `placeNotation` followed by the
cursor-recompute effect, which re-runs exactly when the `notes` array was
replaced (i.e. when `placeNotation` appended instead of rejecting). -/
def stepPlace (s : SeqState) (noteId : Nat) (sym : Notation) : SeqState :=
  let s' := placeNotation s noteId sym
  if s'.notes.length = s.notes.length then s' else recomputeCursorFromNotes s'

/-- Function removeNoteFromCurrentPage from `src/hooks/useScoreProject.ts`:
`notes.filter(note => note.id !== noteId)` on the current page. -/
def removeNoteFromCurrentPage (notes : List PlacedNotation) (noteId : Nat) :
    List PlacedNotation :=
  notes.filter (fun n => n.id != noteId)

/-- The `Backspace` branch of `handleKeyPress` in `ScoreSheet.tsx`: on a
non-empty page, remove the last note's id via `onRemoveNote`
(= `removeNoteFromCurrentPage`); the notes array is replaced, so the
cursor-recompute effect then runs. An empty page is left untouched. -/
def handleBackspace (s : SeqState) : SeqState :=
  match s.notes.getLast? with
  | none => s
  | some lastNote =>
    recomputeCursorFromNotes
      { s with notes := removeNoteFromCurrentPage s.notes lastNote.id }

/-- The `Enter` branch of `handleKeyPress` in `ScoreSheet.tsx`:
`setNextNotePosition(INITIAL_KEYBOARD_NOTE_X_POSITION)` unconditionally,
then advance `currentKeyboardLineIndex` only while a next line exists.
`notes` is untouched, so the recompute effect does not run. -/
def handleEnter (s : SeqState) : SeqState :=
  { s with
    nextNotePosition := INITIAL_KEYBOARD_NOTE_X_POSITION
    currentKeyboardLineIndex :=
      if s.currentKeyboardLineIndex + 1 < KEYBOARD_LINE_Y_POSITIONS.length
      then s.currentKeyboardLineIndex + 1
      else s.currentKeyboardLineIndex }

/-- A keyboard event reaching `handleKeyPress` with sequential mode active,
no tool, and no dropdown/dialog open. -/
inductive KeyInput where
  | backspace : KeyInput
  | enter : KeyInput
  | char : Char → KeyInput

/-- The routing of `handleKeyPress` in `ScoreSheet.tsx` after its guard
clauses: `Backspace` undoes, `Enter` line-breaks, and any other key places
sequentially iff `getNotationByKey` resolves it. -/
def handleKeyPress (s : SeqState) (noteId : Nat) : KeyInput → SeqState
  | KeyInput.backspace => handleBackspace s
  | KeyInput.enter => handleEnter s
  | KeyInput.char c =>
    match getNotationByKey c with
    | some sym => stepPlace s noteId sym
    | none => s

/-- Table midiNoteToNotationMap from `ScoreSheet.tsx`: note numbers 48..73 map
to `a`..`z`, 74..92 to `A`..`S`. -/
def midiNoteToNotationMap : List (Nat × Char) :=
  [ (48, 'a'), (49, 'b'), (50, 'c'), (51, 'd'), (52, 'e'), (53, 'f'),
    (54, 'g'), (55, 'h'), (56, 'i'), (57, 'j'), (58, 'k'), (59, 'l'),
    (60, 'm'), (61, 'n'), (62, 'o'), (63, 'p'), (64, 'q'), (65, 'r'),
    (66, 's'), (67, 't'), (68, 'u'), (69, 'v'), (70, 'w'), (71, 'x'),
    (72, 'y'), (73, 'z'),
    (74, 'A'), (75, 'B'), (76, 'C'), (77, 'D'), (78, 'E'), (79, 'F'),
    (80, 'G'), (81, 'H'), (82, 'I'), (83, 'J'), (84, 'K'), (85, 'L'),
    (86, 'M'), (87, 'N'), (88, 'O'), (89, 'P'), (90, 'Q'), (91, 'R'),
    (92, 'S') ]

/-- Handler handleMidiMessage from `ScoreSheet.tsx`, after its guard clauses
(MIDI enabled, no tool/dropdown): place sequentially when the status byte's
high nibble is note-on (0x90) and velocity is positive and the note number
resolves through `midiNoteToNotationMap` and `getNotationByKey`; otherwise
do nothing. -/
def handleMidiMessage (s : SeqState) (noteId status note velocity : Nat) :
    SeqState :=
  if status &&& 0xf0 = 0x90 ∧ 0 < velocity then
    match List.lookup note midiNoteToNotationMap with
    | some mappedAlphabet =>
      match getNotationByKey mappedAlphabet with
      | some sym => stepPlace s noteId sym
      | none => s
    | none => s
  else
    s

/-- Runs a sequence of sequential placements, each given its `Date.now()`
id and symbol. -/
def placeAll (s : SeqState) (ps : List (Nat × Notation)) : SeqState :=
  ps.foldl (fun acc p => stepPlace acc p.1 p.2) s

/-- States reachable from the initial state by the sequential-input
operations of `ScoreSheet.tsx`: placement, line-break, undo-last, and the
cursor-recompute effect. -/
inductive ReachableSeq : SeqState → Prop where
  | init : ReachableSeq initialSeqState
  | place (s : SeqState) (noteId : Nat) (sym : Notation) :
      ReachableSeq s → ReachableSeq (stepPlace s noteId sym)
  | enter (s : SeqState) : ReachableSeq s → ReachableSeq (handleEnter s)
  | undo (s : SeqState) : ReachableSeq s → ReachableSeq (handleBackspace s)
  | recompute (s : SeqState) :
      ReachableSeq s → ReachableSeq (recomputeCursorFromNotes s)

/-! Free-form elements (`src/App.tsx` shapes) and the eraser / pen
subsystem of `ScoreSheet.tsx`. -/

/-- Structure TextElement from `src/App.tsx`. -/
structure TextElement where
  id : Nat
  text : String
  x : Int
  y : Int
  fontSize : Nat
  bold : Bool
  italic : Bool
  underline : Bool
  deriving DecidableEq, Repr

/-- Structure ArticulationElement from `src/App.tsx`. -/
structure ArticulationElement where
  id : Nat
  type : String
  name : String
  symbol : String
  x : Int
  y : Int
  deriving DecidableEq, Repr

/-- Condition `Math.hypot(dx, dy) <= threshold` from `eraseArticulationsAt`. For the
nonnegative thresholds the component uses (the eraser size), the Euclidean
comparison is equivalent to comparing squares, which keeps the embedding in
exact integer arithmetic. -/
def withinEraser (dx dy threshold : Int) : Bool :=
  decide (dx * dx + dy * dy ≤ threshold * threshold)

/-- Function eraseArticulationsAt from `ScoreSheet.tsx`: collect the ids of all
articulations whose center is within `eraserSize` of the contact point,
then remove each collected id through `onRemoveArticulation`, which filters
the articulation list by id (`src/App.tsx`). The source dedups the id list
through a `Set` first; removal by filtering is idempotent, so the dedup
does not change the result. -/
def eraseArticulationsAt (arts : List ArticulationElement)
    (eraserSize : Int) (x y : Int) : List ArticulationElement :=
  let toRemove :=
    (arts.filter (fun a => withinEraser (x - a.x) (y - a.y) eraserSize)).map
      (fun a => a.id)
  toRemove.foldl (fun acc rid => acc.filter (fun a => a.id != rid)) arts

/-- The element collections a page owns that eraser contact could touch. -/
structure ElementsState where
  notes : List PlacedNotation
  textElements : List TextElement
  articulationElements : List ArticulationElement
  deriving Repr

/-- One eraser contact (pointer-down or pointer-move with the eraser tool):
besides the destructive raster paint, the only element mutation performed
is `eraseArticulationsAt` on the articulation list; notes and text elements
have no eraser path. -/
def eraserContactAt (st : ElementsState) (eraserSize : Int) (x y : Int) :
    ElementsState :=
  { st with
    articulationElements :=
      eraseArticulationsAt st.articulationElements eraserSize x y }

/-- A point of a freehand stroke. -/
structure StrokePoint where
  x : Int
  y : Int
  deriving DecidableEq, Repr

/-- The drawing tool state of `ScoreSheet.tsx`. -/
inductive Tool where
  | none : Tool
  | pen : Tool
  | eraser : Tool
  deriving DecidableEq, Repr

/-- Handler handleMouseUp from `ScoreSheet.tsx` (with `isInteracting` set): with
the pen tool, commit `currentLine` to `drawingLines` iff it has more than
one point, then clear it; other tools leave the stroke state alone. Returns
(committed strokes, current line). -/
def handleMouseUp (tool : Tool) (drawingLines : List (List StrokePoint))
    (currentLine : List StrokePoint) :
    List (List StrokePoint) × List StrokePoint :=
  match tool with
  | Tool.pen =>
    if 1 < currentLine.length then (drawingLines ++ [currentLine], [])
    else (drawingLines, [])
  | _ => (drawingLines, currentLine)


/-! Concrete scenario states used by witnesses and counterexamples. -/

/-- A concrete registry symbol (the trigger key `a`). -/
def sampleSymA : Notation := ⟨"note-a", "Note 1", 'a', "Notes/aa.png"⟩

/-- A concrete registry symbol (the trigger key `b`). -/
def sampleSymB : Notation := ⟨"note-b", "Note 2", 'b', "Notes/bb.png"⟩

/-- State reached from the initial state by ten line-breaks followed by one
sequential placement: the cursor sits on the last line (index 10) with
`nextNotePosition` 220. -/
def enterTenState : SeqState :=
  stepPlace
    (handleEnter (handleEnter (handleEnter (handleEnter (handleEnter
      (handleEnter (handleEnter (handleEnter (handleEnter (handleEnter
        initialSeqState))))))))))
    1 sampleSymA

/-- A page whose two notes were created in the same millisecond, so both
carry `Date.now()` id 5. -/
def dupIdState : SeqState :=
  ⟨[⟨5, sampleSymA, 170, 230, 0, 4⟩, ⟨5, sampleSymB, 220, 230, 0, 4⟩],
    270, 0⟩

/-- Element collections whose two articulations were created in the same
millisecond and therefore share id 1: one at the origin, one at (100, 0). -/
def dupIdArtState : ElementsState :=
  ⟨[], [],
    [⟨1, "staccato", "Staccato", ".", 0, 0⟩,
      ⟨1, "accent", "Accent", ">", 100, 0⟩]⟩

/-- A page with two notes with distinct ids, for undo-last witnesses. -/
def twoNoteState : SeqState :=
  ⟨[⟨1, sampleSymA, 170, 230, 0, 4⟩, ⟨2, sampleSymB, 220, 230, 0, 4⟩],
    270, 0⟩

/-! Helper lemmas. -/

/-- An index returned by `listIndexOf` is in range. -/
theorem listIndexOf_lt_length {y : Nat} :
    ∀ {l : List Nat} {i : Nat}, listIndexOf y l = some i → i < l.length := by
  intro l
  induction l with
  | nil => intro i h; simp [listIndexOf] at h
  | cons z zs ih =>
    intro i h
    rw [listIndexOf] at h
    by_cases hz : z = y
    · rw [if_pos hz] at h
      injection h with h
      rw [← h]
      simp
    · rw [if_neg hz] at h
      cases hj : listIndexOf y zs with
      | none => rw [hj] at h; simp at h
      | some j =>
        rw [hj] at h
        simp at h
        have := ih hj
        simp only [List.length_cons]
        omega

/-- A present element has an index. -/
theorem listIndexOf_of_mem {y : Nat} :
    ∀ {l : List Nat}, y ∈ l → ∃ i, listIndexOf y l = some i := by
  intro l
  induction l with
  | nil => intro h; simp at h
  | cons z zs ih =>
    intro h
    by_cases hz : z = y
    · exact ⟨0, by simp [listIndexOf, hz]⟩
    · have hmem : y ∈ zs := by
        rcases List.mem_cons.mp h with h1 | h1
        · exact absurd h1.symm hz
        · exact h1
      obtain ⟨i, hi⟩ := ih hmem
      exact ⟨i + 1, by simp [listIndexOf, hz, hi]⟩

/-- Looking the value at index `i` back up finds index `i` (the configured
line positions are pairwise distinct). -/
theorem listIndexOf_getD_lines :
    ∀ i : Nat, i < KEYBOARD_LINE_Y_POSITIONS.length →
      listIndexOf (KEYBOARD_LINE_Y_POSITIONS.getD i 0)
        KEYBOARD_LINE_Y_POSITIONS = some i := by decide

/-- Reduction of the recompute effect on a page with a known last note. -/
theorem recompute_of_getLast (s : SeqState) (a : PlacedNotation)
    (h : s.notes.getLast? = some a) :
    recomputeCursorFromNotes s =
      { notes := s.notes
        nextNotePosition := a.x + NOTATION_KEYBOARD_X_INCREMENT
        currentKeyboardLineIndex :=
          match listIndexOf a.y KEYBOARD_LINE_Y_POSITIONS with
          | some i => i
          | none => 0 } := by
  unfold recomputeCursorFromNotes
  rw [h]

/-- The recompute effect never touches the notes and always lands the line
index strictly below the number of configured lines. -/
theorem recomputeCursorFromNotes_spec (s : SeqState) :
    (recomputeCursorFromNotes s).notes = s.notes ∧
      (recomputeCursorFromNotes s).currentKeyboardLineIndex <
        KEYBOARD_LINE_Y_POSITIONS.length := by
  cases h : s.notes.getLast? with
  | none =>
    have : recomputeCursorFromNotes s =
        { s with
          nextNotePosition := INITIAL_KEYBOARD_NOTE_X_POSITION
          currentKeyboardLineIndex := 0 } := by
      unfold recomputeCursorFromNotes
      rw [h]
    rw [this]
    exact ⟨rfl, by show 0 < KEYBOARD_LINE_Y_POSITIONS.length; decide⟩
  | some lastNote =>
    rw [recompute_of_getLast s lastNote h]
    refine ⟨rfl, ?_⟩
    cases hi : listIndexOf lastNote.y KEYBOARD_LINE_Y_POSITIONS with
    | none => simp only [hi]; decide
    | some i =>
      simp only [hi]
      exact listIndexOf_lt_length hi

/-- Rejecting branch of a sequential placement: overflowing on the last
configured line leaves the state untouched. -/
theorem stepPlace_reject {s : SeqState} (noteId : Nat) (sym : Notation)
    (hover : NOTE_BOUNDARY_RIGHT < s.nextNotePosition + NOTATION_VISUAL_WIDTH)
    (hnot : ¬ s.currentKeyboardLineIndex + 1 < KEYBOARD_LINE_Y_POSITIONS.length) :
    stepPlace s noteId sym = s := by
  have hp : placeNotation s noteId sym = s := by
    unfold placeNotation
    simp only [if_pos hover, if_neg hnot]
  unfold stepPlace
  rw [hp]
  simp

/-- Non-overflow branch of a sequential placement, with the recompute
effect folded in. -/
theorem stepPlace_no_wrap {s : SeqState} (noteId : Nat) (sym : Notation)
    (hfit : s.nextNotePosition + NOTATION_VISUAL_WIDTH ≤ NOTE_BOUNDARY_RIGHT)
    (hidx : s.currentKeyboardLineIndex < KEYBOARD_LINE_Y_POSITIONS.length) :
    stepPlace s noteId sym =
      { notes := s.notes ++
          [⟨noteId, sym, s.nextNotePosition,
            KEYBOARD_LINE_Y_POSITIONS.getD s.currentKeyboardLineIndex 0, 0, 4⟩]
        nextNotePosition := s.nextNotePosition + NOTATION_KEYBOARD_X_INCREMENT
        currentKeyboardLineIndex := s.currentKeyboardLineIndex } := by
  have hnover : ¬ NOTE_BOUNDARY_RIGHT < s.nextNotePosition + NOTATION_VISUAL_WIDTH := by
    omega
  have hp : placeNotation s noteId sym =
      { s with
        notes := s.notes ++
          [⟨noteId, sym, s.nextNotePosition,
            KEYBOARD_LINE_Y_POSITIONS.getD s.currentKeyboardLineIndex 0, 0, 4⟩]
        nextNotePosition := s.nextNotePosition + NOTATION_KEYBOARD_X_INCREMENT } := by
    unfold placeNotation
    simp only [if_neg hnover]
  have hlen : ¬ (placeNotation s noteId sym).notes.length = s.notes.length := by
    rw [hp]
    simp
  have hstep : stepPlace s noteId sym =
      recomputeCursorFromNotes (placeNotation s noteId sym) := by
    unfold stepPlace
    simp only [if_neg hlen]
  have hlast : (placeNotation s noteId sym).notes.getLast? =
      some ⟨noteId, sym, s.nextNotePosition,
        KEYBOARD_LINE_Y_POSITIONS.getD s.currentKeyboardLineIndex 0, 0, 4⟩ := by
    rw [hp]
    simp
  rw [hstep, recompute_of_getLast _ _ hlast, hp]
  simp only [listIndexOf_getD_lines _ hidx]

/-- Wrapping branch of a sequential placement, with the recompute effect
folded in. -/
theorem stepPlace_wrap {s : SeqState} (noteId : Nat) (sym : Notation)
    (hover : NOTE_BOUNDARY_RIGHT < s.nextNotePosition + NOTATION_VISUAL_WIDTH)
    (hnext : s.currentKeyboardLineIndex + 1 < KEYBOARD_LINE_Y_POSITIONS.length) :
    stepPlace s noteId sym =
      { notes := s.notes ++
          [⟨noteId, sym, NOTE_BOUNDARY_LEFT,
            KEYBOARD_LINE_Y_POSITIONS.getD (s.currentKeyboardLineIndex + 1) 0, 0, 4⟩]
        nextNotePosition := NOTE_BOUNDARY_LEFT + NOTATION_KEYBOARD_X_INCREMENT
        currentKeyboardLineIndex := s.currentKeyboardLineIndex + 1 } := by
  have hp : placeNotation s noteId sym =
      { s with
        currentKeyboardLineIndex := s.currentKeyboardLineIndex + 1
        notes := s.notes ++
          [⟨noteId, sym, NOTE_BOUNDARY_LEFT,
            KEYBOARD_LINE_Y_POSITIONS.getD (s.currentKeyboardLineIndex + 1) 0, 0, 4⟩]
        nextNotePosition := NOTE_BOUNDARY_LEFT + NOTATION_KEYBOARD_X_INCREMENT } := by
    unfold placeNotation
    simp only [if_pos hover, if_pos hnext]
  have hlen : ¬ (placeNotation s noteId sym).notes.length = s.notes.length := by
    rw [hp]
    simp
  have hstep : stepPlace s noteId sym =
      recomputeCursorFromNotes (placeNotation s noteId sym) := by
    unfold stepPlace
    simp only [if_neg hlen]
  have hlast : (placeNotation s noteId sym).notes.getLast? =
      some ⟨noteId, sym, NOTE_BOUNDARY_LEFT,
        KEYBOARD_LINE_Y_POSITIONS.getD (s.currentKeyboardLineIndex + 1) 0, 0, 4⟩ := by
    rw [hp]
    simp
  rw [hstep, recompute_of_getLast _ _ hlast, hp]
  simp only [listIndexOf_getD_lines _ hnext]

/-! Claim theorems. -/

/-- C3: a sequential placement attempted when the symbol would overflow the
right boundary while the cursor already sits on the last allowed line
(index 10 of the 11 line positions) is rejected: the notes, the insert
position and the line index are all unchanged. -/
theorem C3_reject_on_last_line (s : SeqState) (noteId : Nat) (sym : Notation)
    (hover : NOTE_BOUNDARY_RIGHT < s.nextNotePosition + NOTATION_VISUAL_WIDTH)
    (h10 : s.currentKeyboardLineIndex = 10) :
    stepPlace s noteId sym = s :=
  stepPlace_reject noteId sym hover (by rw [h10]; decide)

/-- Witness for C3 at a concrete overflowing state on line 10. -/
theorem C3_reject_on_last_line_witness :
    NOTE_BOUNDARY_RIGHT <
        (SeqState.mk [] 1020 10).nextNotePosition + NOTATION_VISUAL_WIDTH ∧
      stepPlace (SeqState.mk [] 1020 10) 1 sampleSymA = SeqState.mk [] 1020 10 :=
  ⟨by decide, C3_reject_on_last_line (SeqState.mk [] 1020 10) 1 sampleSymA
    (by decide) rfl⟩

/-- C6 counterexample: in the reachable state `enterTenState` (line index
10, insert position 220), pressing Enter leaves the line index unchanged
but still resets the insert position to 170, refuting the claim that at the
last line the line-break command mutates no state. -/
theorem C6_counterexample :
    enterTenState.currentKeyboardLineIndex = 10 ∧
      enterTenState.nextNotePosition = 220 ∧
      (handleEnter enterTenState).nextNotePosition = 170 ∧
      (handleEnter enterTenState).currentKeyboardLineIndex = 10 := by
  decide

/-- C6 (amended): the line-break command always resets the insert position
to the left boundary and leaves the notes untouched; it advances the line
index by exactly one when a next line exists and leaves the line index
unchanged when the cursor is already on the last allowed line. -/
theorem C6_amended_line_break (s : SeqState) :
    (handleEnter s).notes = s.notes ∧
      (handleEnter s).nextNotePosition = INITIAL_KEYBOARD_NOTE_X_POSITION ∧
      (s.currentKeyboardLineIndex + 1 < KEYBOARD_LINE_Y_POSITIONS.length →
        (handleEnter s).currentKeyboardLineIndex =
          s.currentKeyboardLineIndex + 1) ∧
      (¬ s.currentKeyboardLineIndex + 1 < KEYBOARD_LINE_Y_POSITIONS.length →
        (handleEnter s).currentKeyboardLineIndex =
          s.currentKeyboardLineIndex) := by
  refine ⟨rfl, rfl, fun h => ?_, fun h => ?_⟩
  · unfold handleEnter
    simp only [if_pos h]
  · unfold handleEnter
    simp only [if_neg h]

/-- Witness for the amended C6 at a concrete state on the last line. -/
theorem C6_amended_line_break_witness :
    (handleEnter (SeqState.mk [] 470 10)).notes = [] ∧
      (handleEnter (SeqState.mk [] 470 10)).nextNotePosition =
        INITIAL_KEYBOARD_NOTE_X_POSITION ∧
      (handleEnter (SeqState.mk [] 470 10)).currentKeyboardLineIndex = 10 := by
  obtain ⟨h1, h2, _, h4⟩ := C6_amended_line_break (SeqState.mk [] 470 10)
  exact ⟨h1, h2, h4 (by decide)⟩

/-- C9: on pointer-up with the pen tool, the current stroke is appended to
the committed stroke list exactly when it has at least two recorded points;
shorter strokes (accidental clicks) are discarded and the committed list is
unchanged. -/
theorem C9_stroke_commit (drawingLines : List (List StrokePoint))
    (currentLine : List StrokePoint) :
    (2 ≤ currentLine.length →
      handleMouseUp Tool.pen drawingLines currentLine =
        (drawingLines ++ [currentLine], [])) ∧
      (currentLine.length < 2 →
        handleMouseUp Tool.pen drawingLines currentLine = (drawingLines, [])) ∧
      ((handleMouseUp Tool.pen drawingLines currentLine).1 ≠ drawingLines →
        2 ≤ currentLine.length) := by
  refine ⟨fun h => ?_, fun h => ?_, fun h => ?_⟩
  · unfold handleMouseUp
    rw [if_pos (by omega)]
  · unfold handleMouseUp
    rw [if_neg (by omega)]
  · by_contra hlt
    push_neg at hlt
    apply h
    unfold handleMouseUp
    rw [if_neg (by omega)]

/-- Witness for C9: a one-point stroke is discarded. -/
theorem C9_stroke_commit_witness :
    handleMouseUp Tool.pen [] [StrokePoint.mk 3 4] = ([], []) :=
  (C9_stroke_commit [] [StrokePoint.mk 3 4]).2.1 (by decide)

/-- C10: removal by id filters out every note carrying the given id while
preserving the relative order of the remaining notes, and is a no-op when
no note has the id; since ids are millisecond timestamps, the two
same-millisecond notes of `dupIdState` share id 5 and a single undo-last
removes both. -/
theorem C10_remove_by_id (notes : List PlacedNotation) (noteId : Nat) :
    (∀ n ∈ removeNoteFromCurrentPage notes noteId, n.id ≠ noteId) ∧
      List.Sublist (removeNoteFromCurrentPage notes noteId) notes ∧
      (∀ n ∈ notes, n.id ≠ noteId →
        n ∈ removeNoteFromCurrentPage notes noteId) ∧
      ((∀ n ∈ notes, n.id ≠ noteId) →
        removeNoteFromCurrentPage notes noteId = notes) ∧
      (handleBackspace dupIdState).notes = [] := by
  refine ⟨?_, ?_, ?_, ?_, by decide⟩
  · intro n hn
    have := List.mem_filter.mp hn
    simpa using this.2
  · exact List.filter_sublist notes
  · intro n hn hne
    exact List.mem_filter.mpr ⟨hn, by simpa using hne⟩
  · intro h
    apply List.filter_eq_self.mpr
    intro n hn
    simpa using h n hn

/-- Witness for C10: removing an absent id is a no-op on a concrete page. -/
theorem C10_remove_by_id_witness :
    removeNoteFromCurrentPage twoNoteState.notes 99 = twoNoteState.notes := by
  obtain ⟨_, _, _, h4, _⟩ := C10_remove_by_id twoNoteState.notes 99
  exact h4 (by decide)


/-- C2: a sequential placement attempted when the insert position plus the
symbol width (48) would cross the right boundary (1000) while a next line
exists wraps: the note is appended at (left boundary 170, next line's Y)
and the line index increases by exactly one; in particular, from a page
whose single note sits at (970, line 0's Y 230) with the cursor recomputed
from it, the next sequential placement lands at (170, line 1's Y 338). -/
theorem C2_wrap_to_next_line (s : SeqState) (noteId : Nat) (sym : Notation)
    (hover : NOTE_BOUNDARY_RIGHT < s.nextNotePosition + NOTATION_VISUAL_WIDTH)
    (hnext : s.currentKeyboardLineIndex + 1 < KEYBOARD_LINE_Y_POSITIONS.length) :
    (stepPlace s noteId sym).notes =
        s.notes ++
          [⟨noteId, sym, NOTE_BOUNDARY_LEFT,
            KEYBOARD_LINE_Y_POSITIONS.getD (s.currentKeyboardLineIndex + 1) 0,
            0, 4⟩] ∧
      (stepPlace s noteId sym).currentKeyboardLineIndex =
        s.currentKeyboardLineIndex + 1 ∧
      (stepPlace
          (recomputeCursorFromNotes
            (SeqState.mk [⟨9, sampleSymA, 970, 230, 0, 4⟩] 970 0))
          10 sampleSymB).notes.map (fun n => (n.x, n.y)) =
        [(970, 230), (170, 338)] := by
  rw [stepPlace_wrap noteId sym hover hnext]
  exact ⟨rfl, rfl, by decide⟩

/-- Witness for C2 at a concrete overflowing state on line 0. -/
theorem C2_wrap_to_next_line_witness :
    NOTE_BOUNDARY_RIGHT <
        (SeqState.mk [] 1020 0).nextNotePosition + NOTATION_VISUAL_WIDTH ∧
      (stepPlace (SeqState.mk [] 1020 0) 1 sampleSymA).notes =
        [⟨1, sampleSymA, NOTE_BOUNDARY_LEFT,
          KEYBOARD_LINE_Y_POSITIONS.getD 1 0, 0, 4⟩] ∧
      (stepPlace (SeqState.mk [] 1020 0) 1 sampleSymA).currentKeyboardLineIndex =
        1 := by
  obtain ⟨h1, h2, _⟩ :=
    C2_wrap_to_next_line (SeqState.mk [] 1020 0) 1 sampleSymA (by decide)
      (by decide)
  exact ⟨by decide, by simpa using h1, h2⟩

/-- Removing the last note's id removes exactly the last note, provided no
earlier note shares that id. -/
theorem removeNote_getLast (l : List PlacedNotation)
    (lastNote : PlacedNotation) (hl : l.getLast? = some lastNote)
    (hfresh : ∀ n ∈ l.dropLast, n.id ≠ lastNote.id) :
    removeNoteFromCurrentPage l lastNote.id = l.dropLast := by
  have hne : l ≠ [] := by
    intro h0
    rw [h0] at hl
    simp at hl
  have hsplit : l.dropLast ++ [l.getLast hne] = l :=
    List.dropLast_append_getLast hne
  have hlast_eq : l.getLast hne = lastNote := by
    have hgl := List.getLast?_eq_getLast l hne
    rw [hgl] at hl
    injection hl
  unfold removeNoteFromCurrentPage
  conv_lhs => rw [← hsplit]
  rw [List.filter_append]
  have h1 : l.dropLast.filter (fun n => n.id != lastNote.id) = l.dropLast :=
    List.filter_eq_self.mpr (fun n hn => by simpa using hfresh n hn)
  have h2 : [l.getLast hne].filter (fun n => n.id != lastNote.id) = [] := by
    rw [hlast_eq]
    simp
  rw [h1, h2, List.append_nil]

/-- C4 counterexample: on the page `dupIdState`, whose two notes were
created in the same millisecond and therefore share id 5, a single
undo-last empties the page instead of removing exactly the last note. -/
theorem C4_counterexample :
    dupIdState.notes.length = 2 ∧
      (handleBackspace dupIdState).notes = [] ∧
      (handleBackspace dupIdState).notes ≠ dupIdState.notes.dropLast := by
  decide

/-- C4 (amended): undo-last on a non-empty page removes every note sharing
the last note's id — exactly the last note whenever no earlier note shares
its id — after which the insert position is the new last note's x plus the
increment and the line index is the index of its stored y among the
configured line positions, falling back to (170, line 0) if the page
becomes empty; undo on an empty page changes nothing. -/
theorem C4_amended_undo_last (s : SeqState) :
    (s.notes = [] → handleBackspace s = s) ∧
      (∀ lastNote, s.notes.getLast? = some lastNote →
        (∀ n ∈ s.notes.dropLast, n.id ≠ lastNote.id) →
        (handleBackspace s).notes = s.notes.dropLast ∧
          (s.notes.dropLast = [] →
            (handleBackspace s).nextNotePosition =
                INITIAL_KEYBOARD_NOTE_X_POSITION ∧
              (handleBackspace s).currentKeyboardLineIndex = 0) ∧
          (∀ l', s.notes.dropLast.getLast? = some l' →
            (handleBackspace s).nextNotePosition =
                l'.x + NOTATION_KEYBOARD_X_INCREMENT ∧
              (l'.y ∈ KEYBOARD_LINE_Y_POSITIONS →
                listIndexOf l'.y KEYBOARD_LINE_Y_POSITIONS =
                  some ((handleBackspace s).currentKeyboardLineIndex)))) := by
  constructor
  · intro h
    unfold handleBackspace
    rw [h, List.getLast?_nil]
  · intro lastNote hl hfresh
    have hb : handleBackspace s =
        recomputeCursorFromNotes { s with notes := s.notes.dropLast } := by
      unfold handleBackspace
      rw [hl]
      show recomputeCursorFromNotes
          { s with notes := removeNoteFromCurrentPage s.notes lastNote.id } =
        recomputeCursorFromNotes { s with notes := s.notes.dropLast }
      rw [removeNote_getLast s.notes lastNote hl hfresh]
    refine ⟨?_, ?_, ?_⟩
    · rw [hb]
      exact (recomputeCursorFromNotes_spec _).1
    · intro hnil
      have hn : ({ s with notes := s.notes.dropLast } : SeqState).notes.getLast?
          = none := by
        simp [hnil]
      have hc : recomputeCursorFromNotes { s with notes := s.notes.dropLast } =
          { ({ s with notes := s.notes.dropLast } : SeqState) with
            nextNotePosition := INITIAL_KEYBOARD_NOTE_X_POSITION
            currentKeyboardLineIndex := 0 } := by
        unfold recomputeCursorFromNotes
        rw [hn]
      rw [hb, hc]
      exact ⟨rfl, rfl⟩
    · intro l' hl'
      have hn : ({ s with notes := s.notes.dropLast } : SeqState).notes.getLast?
          = some l' := hl'
      rw [hb, recompute_of_getLast _ _ hn]
      refine ⟨rfl, ?_⟩
      intro hy
      obtain ⟨i, hi⟩ := listIndexOf_of_mem hy
      rw [hi]

/-- Witness for the amended C4 on a two-note page with distinct ids. -/
theorem C4_amended_undo_last_witness :
    (handleBackspace twoNoteState).notes = [⟨1, sampleSymA, 170, 230, 0, 4⟩] ∧
      (handleBackspace twoNoteState).nextNotePosition = 220 ∧
      listIndexOf 230 KEYBOARD_LINE_Y_POSITIONS =
        some ((handleBackspace twoNoteState).currentKeyboardLineIndex) := by
  obtain ⟨_, h2⟩ := C4_amended_undo_last twoNoteState
  obtain ⟨ha, _, hc⟩ :=
    h2 ⟨2, sampleSymB, 220, 230, 0, 4⟩ (by decide) (by decide)
  obtain ⟨hx, hy⟩ := hc ⟨1, sampleSymA, 170, 230, 0, 4⟩ (by decide)
  have hd : twoNoteState.notes.dropLast = [⟨1, sampleSymA, 170, 230, 0, 4⟩] := by
    decide
  rw [hd] at ha
  exact ⟨ha, hx, hy (by decide)⟩

/-- C5: in every state reachable by sequential placement, line-break,
undo-last and cursor recomputation, the line index is a valid index into
the 11 configured line positions, and every placed note's x plus the
symbol width (48) stays within the right boundary (1000). -/
theorem C5_reachable_invariant (s : SeqState) (h : ReachableSeq s) :
    s.currentKeyboardLineIndex < KEYBOARD_LINE_Y_POSITIONS.length ∧
      ∀ n ∈ s.notes, n.x + NOTATION_VISUAL_WIDTH ≤ NOTE_BOUNDARY_RIGHT := by
  induction h with
  | init =>
    refine ⟨by decide, ?_⟩
    intro n hn
    simp [initialSeqState] at hn
  | place s noteId sym hs ih =>
    by_cases hover :
        NOTE_BOUNDARY_RIGHT < s.nextNotePosition + NOTATION_VISUAL_WIDTH
    · by_cases hnext :
          s.currentKeyboardLineIndex + 1 < KEYBOARD_LINE_Y_POSITIONS.length
      · rw [stepPlace_wrap noteId sym hover hnext]
        refine ⟨hnext, ?_⟩
        intro n hn
        rcases List.mem_append.mp hn with h1 | h1
        · exact ih.2 n h1
        · simp only [List.mem_singleton] at h1
          subst h1
          show NOTE_BOUNDARY_LEFT + NOTATION_VISUAL_WIDTH ≤ NOTE_BOUNDARY_RIGHT
          decide
      · rw [stepPlace_reject noteId sym hover hnext]
        exact ih
    · push_neg at hover
      rw [stepPlace_no_wrap noteId sym hover ih.1]
      refine ⟨ih.1, ?_⟩
      intro n hn
      rcases List.mem_append.mp hn with h1 | h1
      · exact ih.2 n h1
      · simp only [List.mem_singleton] at h1
        subst h1
        show s.nextNotePosition + NOTATION_VISUAL_WIDTH ≤ NOTE_BOUNDARY_RIGHT
        exact hover
  | enter s hs ih =>
    constructor
    · by_cases hn :
          s.currentKeyboardLineIndex + 1 < KEYBOARD_LINE_Y_POSITIONS.length
      · have : (handleEnter s).currentKeyboardLineIndex =
            s.currentKeyboardLineIndex + 1 := by
          unfold handleEnter
          simp only [if_pos hn]
        rw [this]
        exact hn
      · have : (handleEnter s).currentKeyboardLineIndex =
            s.currentKeyboardLineIndex := by
          unfold handleEnter
          simp only [if_neg hn]
        rw [this]
        exact ih.1
    · intro n hn
      exact ih.2 n hn
  | undo s hs ih =>
    cases hl : s.notes.getLast? with
    | none =>
      have hb : handleBackspace s = s := by
        unfold handleBackspace
        rw [hl]
      rw [hb]
      exact ih
    | some lastNote =>
      have hb : handleBackspace s =
          recomputeCursorFromNotes
            { s with notes := removeNoteFromCurrentPage s.notes lastNote.id } := by
        unfold handleBackspace
        rw [hl]
      rw [hb]
      have hr := recomputeCursorFromNotes_spec
        { s with notes := removeNoteFromCurrentPage s.notes lastNote.id }
      refine ⟨hr.2, ?_⟩
      intro n hn
      rw [hr.1] at hn
      have hn' : n ∈ s.notes.filter (fun m => m.id != lastNote.id) := hn
      exact ih.2 n (List.mem_filter.mp hn').1
  | recompute s hs ih =>
    have hr := recomputeCursorFromNotes_spec s
    refine ⟨hr.2, ?_⟩
    intro n hn
    rw [hr.1] at hn
    exact ih.2 n hn

/-- Witness for C5 at the reachable state after one placement. -/
theorem C5_reachable_invariant_witness :
    (stepPlace initialSeqState 1 sampleSymA).currentKeyboardLineIndex <
        KEYBOARD_LINE_Y_POSITIONS.length ∧
      ∀ n ∈ (stepPlace initialSeqState 1 sampleSymA).notes,
        n.x + NOTATION_VISUAL_WIDTH ≤ NOTE_BOUNDARY_RIGHT :=
  C5_reachable_invariant _
    (ReachableSeq.place _ 1 sampleSymA ReachableSeq.init)


/-- Membership after removing a list of ids by repeated filtering. -/
theorem mem_foldl_removeIds (ids : List Nat) :
    ∀ (arts : List ArticulationElement) (a : ArticulationElement),
      a ∈ ids.foldl (fun acc rid => acc.filter (fun b => b.id != rid)) arts ↔
        a ∈ arts ∧ a.id ∉ ids := by
  induction ids with
  | nil =>
    intro arts a
    simp
  | cons i ids ih =>
    intro arts a
    simp only [List.foldl_cons]
    rw [ih]
    constructor
    · rintro ⟨hmem, hni⟩
      rcases List.mem_filter.mp hmem with ⟨ha, hb⟩
      simp only [bne_iff_ne, ne_eq] at hb
      simp only [List.mem_cons]
      exact ⟨ha, by tauto⟩
    · rintro ⟨ha, hn⟩
      simp only [List.mem_cons] at hn
      push_neg at hn
      exact ⟨List.mem_filter.mpr ⟨ha, by simp [hn.1]⟩, hn.2⟩

/-- C8 counterexample: on `dupIdArtState`, whose two articulations share
the same-millisecond id 1, an eraser contact at (10, 0) with threshold 20
reaches only the articulation at the origin, yet the articulation at
(100, 0) — at squared distance 8100, far beyond the threshold — is removed
as well, because removal goes through the shared id. This refutes the
original claim that every articulation farther than the eraser radius is
left untouched. -/
theorem C8_counterexample :
    ArticulationElement.mk 1 "accent" "Accent" ">" 100 0 ∈
        dupIdArtState.articulationElements ∧
      (20 : Int) * 20 <
        (10 - (100 : Int)) * (10 - 100) + (0 - (0 : Int)) * (0 - 0) ∧
      ArticulationElement.mk 1 "accent" "Accent" ">" 100 0 ∉
        (eraserContactAt dupIdArtState 20 10 0).articulationElements := by
  decide

/-- C8 (amended): an eraser contact at (x, y) removes every articulation
whose center lies within the eraser threshold (squared-distance comparison,
the integer form of the source's Euclidean test) and never touches placed
notes or text elements; an articulation strictly farther away is left in
place provided the articulation ids are pairwise distinct (ids are
millisecond timestamps, so same-millisecond duplicates of a reached id are
removed with it). -/
theorem C8_eraser_articulations (st : ElementsState) (eraserSize x y : Int) :
    (∀ a ∈ st.articulationElements,
        (x - a.x) * (x - a.x) + (y - a.y) * (y - a.y) ≤
            eraserSize * eraserSize →
          a ∉ (eraserContactAt st eraserSize x y).articulationElements) ∧
      ((st.articulationElements.map (fun a => a.id)).Nodup →
        ∀ a ∈ st.articulationElements,
          eraserSize * eraserSize <
              (x - a.x) * (x - a.x) + (y - a.y) * (y - a.y) →
            a ∈ (eraserContactAt st eraserSize x y).articulationElements) ∧
      (eraserContactAt st eraserSize x y).notes = st.notes ∧
      (eraserContactAt st eraserSize x y).textElements = st.textElements := by
  have hres : (eraserContactAt st eraserSize x y).articulationElements =
      ((st.articulationElements.filter
          (fun a => withinEraser (x - a.x) (y - a.y) eraserSize)).map
        (fun a => a.id)).foldl
        (fun acc rid => acc.filter (fun b => b.id != rid))
        st.articulationElements := rfl
  refine ⟨?_, ?_, rfl, rfl⟩
  · intro a ha hdist hmem
    rw [hres, mem_foldl_removeIds] at hmem
    apply hmem.2
    apply List.mem_map_of_mem
    exact List.mem_filter.mpr ⟨ha, by simpa [withinEraser] using hdist⟩
  · intro hnd a ha hdist
    rw [hres, mem_foldl_removeIds]
    refine ⟨ha, ?_⟩
    intro hid
    rcases List.mem_map.mp hid with ⟨b, hbmem, hbid⟩
    rcases List.mem_filter.mp hbmem with ⟨hb, hbnear⟩
    have hnear : (x - b.x) * (x - b.x) + (y - b.y) * (y - b.y) ≤
        eraserSize * eraserSize := by
      simpa [withinEraser] using hbnear
    have hab : b = a := List.inj_on_of_nodup_map hnd hb ha hbid
    rw [hab] at hnear
    exact absurd hnear (not_le.mpr hdist)

/-- Witness for C8: a contact at (10, 0) with threshold 20 removes the
articulation centered at the origin and keeps the one at (100, 0). -/
theorem C8_eraser_articulations_witness :
    ArticulationElement.mk 1 "staccato" "Staccato" "." 0 0 ∉
        (eraserContactAt
          (ElementsState.mk []
            []
            [⟨1, "staccato", "Staccato", ".", 0, 0⟩,
              ⟨2, "accent", "Accent", "qq", 100, 0⟩])
          20 10 0).articulationElements ∧
      ArticulationElement.mk 2 "accent" "Accent" "qq" 100 0 ∈
        (eraserContactAt
          (ElementsState.mk []
            []
            [⟨1, "staccato", "Staccato", ".", 0, 0⟩,
              ⟨2, "accent", "Accent", "qq", 100, 0⟩])
          20 10 0).articulationElements := by
  obtain ⟨hnear, hfar, _, _⟩ :=
    C8_eraser_articulations
      (ElementsState.mk []
        []
        [⟨1, "staccato", "Staccato", ".", 0, 0⟩,
          ⟨2, "accent", "Accent", "qq", 100, 0⟩])
      20 10 0
  exact ⟨hnear _ (by decide) (by decide),
    hfar (by decide) _ (by decide) (by decide)⟩

/-- Association lookup misses when no key matches. -/
theorem lookup_none_of_keys :
    ∀ {l : List (Nat × Char)} {n : Nat},
      (∀ p ∈ l, p.1 ≠ n) → List.lookup n l = none := by
  intro l
  induction l with
  | nil => intro n h; rfl
  | cons kv l ih =>
    obtain ⟨k, v⟩ := kv
    intro n h
    have hk : k ≠ n := h (k, v) (List.mem_cons_self (k, v) l)
    simp only [List.lookup]
    rw [beq_eq_false_iff_ne.mpr (Ne.symm hk)]
    exact ih (fun p hp => h p (List.mem_cons_of_mem _ hp))

/-- Every key of the MIDI table lies in the range 48..92. -/
theorem midi_keys_range :
    ∀ p ∈ midiNoteToNotationMap, 48 ≤ p.1 ∧ p.1 ≤ 92 := by decide

/-- Note numbers outside 48..92 do not resolve. -/
theorem midiLookup_out_of_range {note : Nat} (h : note < 48 ∨ 92 < note) :
    List.lookup note midiNoteToNotationMap = none := by
  apply lookup_none_of_keys
  intro p hp
  have := midi_keys_range p hp
  omega

/-- Every note number in 48..92 resolves through the MIDI table to a
registered symbol. -/
theorem midi_resolves : ∀ note : Nat, note < 93 → 48 ≤ note →
    ((List.lookup note midiNoteToNotationMap).bind getNotationByKey).isSome
      = true := by decide

/-- C7: a MIDI message triggers a sequential placement exactly when its
status byte's high nibble is the note-on nibble (0x90), its velocity is
positive, and its note number lies in the 48..92 range covered by the
note-number table (in which case the note resolves to a registered symbol
and the handler behaves as a keyboard sequential placement); every other
message leaves the page and cursor state unchanged. -/
theorem C7_midi_gate (s : SeqState) (noteId status note velocity : Nat) :
    ((status &&& 0xf0 = 0x90 ∧ 0 < velocity ∧ 48 ≤ note ∧ note ≤ 92) →
      ∃ mappedAlphabet sym,
        List.lookup note midiNoteToNotationMap = some mappedAlphabet ∧
          getNotationByKey mappedAlphabet = some sym ∧
          handleMidiMessage s noteId status note velocity =
            stepPlace s noteId sym) ∧
      (¬ (status &&& 0xf0 = 0x90 ∧ 0 < velocity ∧ 48 ≤ note ∧ note ≤ 92) →
        handleMidiMessage s noteId status note velocity = s) := by
  constructor
  · rintro ⟨h1, h2, h3, h4⟩
    have hres := midi_resolves note (by omega) h3
    cases hlk : List.lookup note midiNoteToNotationMap with
    | none =>
      rw [hlk] at hres
      simp at hres
    | some ch =>
      cases hgk : getNotationByKey ch with
      | none =>
        rw [hlk] at hres
        simp [hgk] at hres
      | some sym =>
        refine ⟨ch, sym, rfl, hgk, ?_⟩
        unfold handleMidiMessage
        rw [if_pos ⟨h1, h2⟩, hlk]
        show (match getNotationByKey ch with
              | some t => stepPlace s noteId t
              | none => s) = stepPlace s noteId sym
        rw [hgk]
  · intro hno
    unfold handleMidiMessage
    by_cases hc : status &&& 0xf0 = 0x90 ∧ 0 < velocity
    · rw [if_pos hc]
      have hlk : List.lookup note midiNoteToNotationMap = none := by
        apply midiLookup_out_of_range
        rcases Nat.lt_or_ge note 48 with h | h
        · exact Or.inl h
        · right
          by_contra hle
          push_neg at hle
          exact hno ⟨hc.1, hc.2, h, by omega⟩
      rw [hlk]
    · rw [if_neg hc]

/-- Witness for C7: a note-off message (status 0x80) is ignored. -/
theorem C7_midi_gate_witness :
    handleMidiMessage initialSeqState 1 128 60 100 = initialSeqState :=
  (C7_midi_gate initialSeqState 1 128 60 100).2 (by decide)


/-- An arithmetic progression with step 50 satisfies the chain relation
"each element is the previous plus 50". -/
theorem chain_arith50 :
    ∀ (n a : Nat),
      List.Chain' (fun p q => q = p + 50)
        ((List.range n).map (fun i => a + 50 * i)) := by
  intro n
  induction n with
  | zero => intro a; simp
  | succ m ih =>
    intro a
    rw [List.range_succ_eq_map]
    simp only [List.map_cons, List.map_map]
    rw [List.chain'_cons']
    constructor
    · intro b hb
      cases m with
      | zero => simp at hb
      | succ k =>
        rw [List.range_succ_eq_map] at hb
        simp [Function.comp] at hb
        omega
    · have heq : (List.range m).map ((fun i => a + 50 * i) ∘ Nat.succ) =
          (List.range m).map (fun i => (a + 50) + 50 * i) :=
        List.map_congr_left (fun i _ => by simp [Function.comp]; ring)
      rw [heq]
      exact ih (a + 50)

/-- Shifting one step of an arithmetic pair progression into the range. -/
theorem range_shift_pair (len k : Nat) :
    ((170 + 50 * k : Nat), (230 : Nat)) ::
        (List.range len).map (fun i => (170 + 50 * (k + 1 + i), 230)) =
      (List.range (len + 1)).map (fun i => (170 + 50 * (k + i), 230)) := by
  rw [List.range_succ_eq_map]
  simp only [List.map_cons, List.map_map]
  congr 1
  apply List.map_congr_left
  intro i hi
  simp only [Function.comp_apply, Prod.mk.injEq]
  exact ⟨by omega, trivial⟩

/-- Running a sequence of sequential placements that stays within line
capacity from a line-0 cursor appends notes at 50-step x positions on line
0 and advances the cursor accordingly. -/
theorem placeAll_run :
    ∀ (ps : List (Nat × Notation)) (s : SeqState) (k : Nat),
      s.nextNotePosition = 170 + 50 * k →
      s.currentKeyboardLineIndex = 0 →
      k + ps.length ≤ 16 →
      (placeAll s ps).notes.map (fun n => (n.x, n.y)) =
          s.notes.map (fun n => (n.x, n.y)) ++
            (List.range ps.length).map (fun i => (170 + 50 * (k + i), 230)) ∧
        (placeAll s ps).nextNotePosition = 170 + 50 * (k + ps.length) ∧
        (placeAll s ps).currentKeyboardLineIndex = 0 := by
  intro ps
  induction ps with
  | nil =>
    intro s k h1 h2 h3
    refine ⟨by simp [placeAll], ?_, h2⟩
    simp only [placeAll, List.foldl_nil, List.length_nil]
    rw [h1]
    ring
  | cons p ps ih =>
    intro s k h1 h2 h3
    have hk : k ≤ 15 := by
      simp only [List.length_cons] at h3
      omega
    have hfit : s.nextNotePosition + NOTATION_VISUAL_WIDTH ≤
        NOTE_BOUNDARY_RIGHT := by
      rw [h1]
      show 170 + 50 * k + 48 ≤ 1000
      omega
    have hidx : s.currentKeyboardLineIndex <
        KEYBOARD_LINE_Y_POSITIONS.length := by
      rw [h2]
      decide
    have hstep := stepPlace_no_wrap p.1 p.2 hfit hidx
    have hfold : placeAll s (p :: ps) = placeAll (stepPlace s p.1 p.2) ps := by
      unfold placeAll
      simp
    have h1' : (stepPlace s p.1 p.2).nextNotePosition = 170 + 50 * (k + 1) := by
      rw [hstep]
      show s.nextNotePosition + NOTATION_KEYBOARD_X_INCREMENT =
        170 + 50 * (k + 1)
      rw [h1]
      show 170 + 50 * k + 50 = 170 + 50 * (k + 1)
      ring
    have h2' : (stepPlace s p.1 p.2).currentKeyboardLineIndex = 0 := by
      rw [hstep]
      exact h2
    have h3' : (k + 1) + ps.length ≤ 16 := by
      simp only [List.length_cons] at h3
      omega
    obtain ⟨ha, hb, hc⟩ := ih (stepPlace s p.1 p.2) (k + 1) h1' h2' h3'
    rw [hfold]
    refine ⟨?_, ?_, hc⟩
    · rw [ha]
      have hnotes : (stepPlace s p.1 p.2).notes.map (fun n => (n.x, n.y)) =
          s.notes.map (fun n => (n.x, n.y)) ++ [(170 + 50 * k, 230)] := by
        rw [hstep]
        dsimp only
        rw [List.map_append]
        congr 1
        simp [h1, h2, KEYBOARD_LINE_Y_POSITIONS]
      rw [hnotes, List.append_assoc]
      congr 1
      simp only [List.length_cons, List.singleton_append]
      exact range_shift_pair ps.length k
    · rw [hb]
      simp only [List.length_cons]
      ring

/-- C1: any sequence of at most 16 sequential placements from the empty
initial page (a line's capacity) lands on line 0's Y (230) at x positions
170, 220, 270, ... — consecutive spacing exactly the fixed increment 50,
hence strictly increasing; in particular three placements yield x
positions [170, 220, 270]. -/
theorem C1_sequential_spacing (ps : List (Nat × Notation))
    (h : ps.length ≤ 16) :
    ((placeAll initialSeqState ps).notes.map (fun n => (n.x, n.y)) =
        (List.range ps.length).map
          (fun i => (INITIAL_KEYBOARD_NOTE_X_POSITION +
            NOTATION_KEYBOARD_X_INCREMENT * i, 230))) ∧
      (∀ n ∈ (placeAll initialSeqState ps).notes,
        n.y = KEYBOARD_LINE_Y_POSITIONS.getD 0 0) ∧
      List.Chain' (fun a b => b = a + NOTATION_KEYBOARD_X_INCREMENT)
        ((placeAll initialSeqState ps).notes.map (fun n => n.x)) ∧
      (ps.length = 3 →
        (placeAll initialSeqState ps).notes.map (fun n => n.x) =
          [170, 220, 270]) := by
  obtain ⟨ha, _, _⟩ :=
    placeAll_run ps initialSeqState 0 rfl rfl (by omega)
  have ha' : (placeAll initialSeqState ps).notes.map (fun n => (n.x, n.y)) =
      (List.range ps.length).map (fun i => (170 + 50 * i, 230)) := by
    rw [ha]
    simp only [initialSeqState, List.map_nil, List.nil_append]
    exact List.map_congr_left (fun i _ => by norm_num)
  have hx : (placeAll initialSeqState ps).notes.map (fun n => n.x) =
      (List.range ps.length).map (fun i => 170 + 50 * i) := by
    have hcongr := congrArg (List.map (fun p : Nat × Nat => p.1)) ha'
    rw [List.map_map, List.map_map] at hcongr
    exact hcongr
  refine ⟨ha', ?_, ?_, ?_⟩
  · intro n hn
    have hpair : (n.x, n.y) ∈
        (List.range ps.length).map (fun i => (170 + 50 * i, 230)) := by
      rw [← ha']
      exact List.mem_map_of_mem _ hn
    rcases List.mem_map.mp hpair with ⟨i, _, hi⟩
    exact (congrArg Prod.snd hi).symm
  · rw [hx]
    exact chain_arith50 ps.length 170
  · intro h3
    rw [hx, h3]
    decide

/-- Witness for C1: three concrete placements yield [170, 220, 270]. -/
theorem C1_sequential_spacing_witness :
    (placeAll initialSeqState
        [(1, sampleSymA), (2, sampleSymB), (3, sampleSymA)]).notes.map
      (fun n => n.x) = [170, 220, 270] := by
  obtain ⟨_, _, _, h4⟩ :=
    C1_sequential_spacing [(1, sampleSymA), (2, sampleSymB), (3, sampleSymA)]
      (by decide)
  exact h4 rfl

end DNG
